import Mathlib

/-!
Verification development for the pseudo-georeference tool (src/main.rs).

Rust `f64` is modelled by the type `FP`: an exact rational finite value or
one of the IEEE-754 special values `inf`, `ninf`, `nan`.  Finite arithmetic
is exact (decimal literals are read as exact rationals; no binary rounding),
while the special values follow IEEE-754 semantics for the operations the
program uses.  Zeros are unsigned and behave as IEEE +0; this matches the
program, where every zero that can reach a division stems from nonnegative
quantities (pixel counts cast to f64, absolute differences).
-/

inductive FP where
  | fin : ℚ → FP
  | inf : FP
  | ninf : FP
  | nan : FP
deriving DecidableEq

namespace FP

def isNan : FP → Bool
  | nan => true
  | _ => false

def neg : FP → FP
  | fin a => fin (-a)
  | inf => ninf
  | ninf => inf
  | nan => nan

/-- IEEE abs (`f64::abs`). -/
def abs : FP → FP
  | fin a => fin (if a < 0 then -a else a)
  | inf => inf
  | ninf => inf
  | nan => nan

def add : FP → FP → FP
  | nan, _ => nan
  | _, nan => nan
  | fin a, fin b => fin (a + b)
  | fin _, inf => inf
  | fin _, ninf => ninf
  | inf, fin _ => inf
  | inf, inf => inf
  | inf, ninf => nan
  | ninf, fin _ => ninf
  | ninf, inf => nan
  | ninf, ninf => ninf

/-- IEEE subtraction; `a - b` is exactly `a + (-b)`. -/
def sub (a b : FP) : FP := add a (neg b)

def mul : FP → FP → FP
  | nan, _ => nan
  | _, nan => nan
  | fin a, fin b => fin (a * b)
  | fin a, inf => if 0 < a then inf else if a < 0 then ninf else nan
  | fin a, ninf => if 0 < a then ninf else if a < 0 then inf else nan
  | inf, fin b => if 0 < b then inf else if b < 0 then ninf else nan
  | ninf, fin b => if 0 < b then ninf else if b < 0 then inf else nan
  | inf, inf => inf
  | inf, ninf => ninf
  | ninf, inf => ninf
  | ninf, ninf => inf

/-- IEEE division with an unsigned (+0) zero: `x/0` is `±inf` by the sign of
`x`, `0/0` is `nan`, finite/infinite is `0`, infinite/infinite is `nan`. -/
def div : FP → FP → FP
  | nan, _ => nan
  | _, nan => nan
  | fin a, fin b =>
      if b = 0 then (if 0 < a then inf else if a < 0 then ninf else nan)
      else fin (a / b)
  | fin _, inf => fin 0
  | fin _, ninf => fin 0
  | inf, fin b => if 0 ≤ b then inf else ninf
  | ninf, fin b => if 0 ≤ b then ninf else inf
  | inf, inf => nan
  | inf, ninf => nan
  | ninf, inf => nan
  | ninf, ninf => nan

/-- IEEE `<`: false whenever a nan is involved. -/
def lt : FP → FP → Bool
  | nan, _ => false
  | _, nan => false
  | fin a, fin b => decide (a < b)
  | fin _, inf => true
  | fin _, ninf => false
  | inf, _ => false
  | ninf, ninf => false
  | ninf, _ => true

/-- IEEE `≤`: false whenever a nan is involved. -/
def le : FP → FP → Bool
  | nan, _ => false
  | _, nan => false
  | fin a, fin b => decide (a ≤ b)
  | _, inf => true
  | ninf, _ => true
  | inf, fin _ => false
  | inf, ninf => false
  | fin _, ninf => false

/-- The finite value, defaulting to 0 on special values (used only to state
properties of results already known to be finite). -/
def toRatD : FP → ℚ
  | fin a => a
  | _ => 0

end FP

/-- Rust 1.0-era `std::cmp::partial_min`: `none` when the arguments are
incomparable (a nan is involved), else the smaller one, preferring the first
argument on equality. -/
def pmin (a b : FP) : Option FP :=
  if a.isNan || b.isNan then none
  else if FP.le a b then some a else some b

/-- The `difference!` macro of main.rs: `($a - $b).abs()`. -/
def difference (a b : FP) : FP := FP.abs (FP.sub a b)

structure BoundingBox where
  minx : FP
  miny : FP
  maxx : FP
  maxy : FP
deriving DecidableEq

def BoundingBox.width (b : BoundingBox) : FP := difference b.minx b.maxx

def BoundingBox.height (b : BoundingBox) : FP := difference b.miny b.maxy

structure RasterSize where
  width : Nat
  height : Nat
deriving DecidableEq

structure RefBox where
  bbox : BoundingBox
  size : RasterSize
  name : Option String
  filename : Option String
deriving DecidableEq

/-- The constant `CRS_BBOX = [-20026376.39, -20048966.10, 20026376.39, 20048966.10]`. -/
def CRS_BBOX : Fin 4 → FP
  | 0 => .fin (-20026376.39)
  | 1 => .fin (-20048966.10)
  | 2 => .fin 20026376.39
  | 3 => .fin 20048966.10

/-- Body of `RefBox::new`, with the `CRS_BBOX` constant it reads made a
parameter (the source reads the process-wide static directly); `refBox_new`
below instantiates it with `CRS_BBOX`.  The two-element `f64` arrays are
modelled as pairs, the in-place update of `extent_img` as an `if` on the
branch that picks the updated pair. -/
def refBox_new_with (crs : Fin 4 → FP) (width height : Nat) : RefBox :=
  let raster_size : RasterSize := { width := width, height := height }
  let extent_world : FP × FP :=
    (difference (crs 0) (crs 2), difference (crs 1) (crs 3))
  let ratio_world := FP.div extent_world.1 extent_world.2
  let ratio_img := FP.div (.fin (raster_size.width : ℚ)) (.fin (raster_size.height : ℚ))
  -- `if ratio_world > ratio_img { extent_img[0] /= ratio_img } else { extent_img[1] /= ratio_img }`
  let extent_img : FP × FP :=
    if FP.lt ratio_img ratio_world then
      (FP.div extent_world.1 ratio_img, extent_world.2)
    else
      (extent_world.1, FP.div extent_world.2 ratio_img)
  -- `.expect("no min")` cannot fire: the program only applies it to the
  -- finite CRS_BBOX constants; the panic default is modelled as nan.
  let center_world : FP × FP :=
    (FP.add ((pmin (crs 0) (crs 2)).getD .nan) (FP.div extent_world.1 (.fin 2)),
     FP.add ((pmin (crs 1) (crs 3)).getD .nan) (FP.div extent_world.2 (.fin 2)))
  { size := raster_size
    bbox :=
      { minx := FP.sub center_world.1 (FP.div extent_img.1 (.fin 2))
        miny := FP.sub center_world.2 (FP.div extent_img.2 (.fin 2))
        maxx := FP.add center_world.1 (FP.div extent_img.1 (.fin 2))
        maxy := FP.add center_world.2 (FP.div extent_img.2 (.fin 2)) }
    name := none
    filename := none }

/-- Embedding of `RefBox::new` from main.rs. -/
def refBox_new (width height : Nat) : RefBox :=
  refBox_new_with CRS_BBOX width height

/-- Embedding of `RefBox::world_file_values` from main.rs: the `[f64; 6]` array as a list. -/
def world_file_values (rb : RefBox) : List FP :=
  [ FP.div rb.bbox.width (.fin (rb.size.width : ℚ)),
    .fin 0,
    .fin 0,
    FP.mul (FP.div rb.bbox.height (.fin (rb.size.height : ℚ))) (.fin (-1)),
    rb.bbox.minx,
    rb.bbox.maxy ]

/-- The world extent in x, `|CRS_BBOX[0] - CRS_BBOX[2]|`. -/
def ewxQ : ℚ := 40052752.78

/-- The world extent in y, `|CRS_BBOX[1] - CRS_BBOX[3]|`. -/
def ewyQ : ℚ := 40097932.20

/-- The world aspect ratio `ewxQ / ewyQ` in lowest terms. -/
def rwQ : ℚ := 2002637639 / 2004896610

/-- The CRS_BBOX constants as rationals. -/
def crsQ : Fin 4 → ℚ
  | 0 => -20026376.39
  | 1 => -20048966.10
  | 2 => 20026376.39
  | 3 => 20048966.10

/-- The spec's step-4 `min` on doubles (total on the finite constants it is
applied to; ties prefer the first argument, as any IEEE min does on equal
finite values). -/
def FP.minF (a b : FP) : FP := if FP.lt b a then b else a

/-- The Geotransform Calculator algorithm as worded by the spec (§4.2 steps
1–5), written independently of `refBox_new` for comparison:
1. `extentWorld = (|extent.maxX - extent.minX|, |extent.maxY - extent.minY|)`;
2. `ratioWorld = extentWorld.x / extentWorld.y`, `ratioImg = width / height`;
3. copy `extentWorld`, then if `ratioWorld > ratioImg` divide the x component
   by `ratioImg`, else divide the y component by `ratioImg`;
4. `centerWorld = (min(minX, maxX) + extentWorld.x/2, min(minY, maxY) + extentWorld.y/2)`;
5. the box is `centerWorld ∓ extentImg/2`. -/
def computeReference_spec (w h : Nat) : BoundingBox :=
  let extentWorld : FP × FP :=
    (FP.abs (FP.sub (CRS_BBOX 2) (CRS_BBOX 0)), FP.abs (FP.sub (CRS_BBOX 3) (CRS_BBOX 1)))
  let ratioWorld := FP.div extentWorld.1 extentWorld.2
  let ratioImg := FP.div (.fin (w : ℚ)) (.fin (h : ℚ))
  let extentImg : FP × FP :=
    if FP.lt ratioImg ratioWorld then
      (FP.div extentWorld.1 ratioImg, extentWorld.2)
    else
      (extentWorld.1, FP.div extentWorld.2 ratioImg)
  let centerWorld : FP × FP :=
    (FP.add (FP.minF (CRS_BBOX 0) (CRS_BBOX 2)) (FP.div extentWorld.1 (.fin 2)),
     FP.add (FP.minF (CRS_BBOX 1) (CRS_BBOX 3)) (FP.div extentWorld.2 (.fin 2)))
  { minx := FP.sub centerWorld.1 (FP.div extentImg.1 (.fin 2))
    miny := FP.sub centerWorld.2 (FP.div extentImg.2 (.fin 2))
    maxx := FP.add centerWorld.1 (FP.div extentImg.1 (.fin 2))
    maxy := FP.add centerWorld.2 (FP.div extentImg.2 (.fin 2)) }

/-! ### Error types, dimension reading, and the per-image pipeline -/

/-- Rust `std::old_io::IoError`, modelled opaquely as a message. -/
inductive IoError where
  | mk : String → IoError
deriving DecidableEq

/-- The image crate's `ImageError`, modelled opaquely as a message. -/
inductive ImageError where
  | mk : String → ImageError
deriving DecidableEq

/-- Rust `std::string::FromUtf8Error`, modelled opaquely. -/
inductive FromUtf8Error where
  | mk : FromUtf8Error
deriving DecidableEq

/-- Embedding of `GeoRefError` from main.rs; `fromUtf8` is the `FromUtf8Error` variant. -/
inductive GeoRefError where
  | Io : IoError → GeoRefError
  | Image : ImageError → GeoRefError
  | fromUtf8 : FromUtf8Error → GeoRefError
deriving DecidableEq

/-- Embedding of `read_image_size` from main.rs.  The two external probes are oracle
outcomes: `jpeg_dims` is `JPEGDecoder::dimensions()` over the buffered
reader (whose error also covers an unreadable file, since the reader wraps
the `File::open` result), `fallback` is `image::open(path)` followed by
`.dimensions()`.  A fast-path error is matched and discarded (`Err(_) => {}`);
a fallback error is converted by `try!` through `FromError` into
`GeoRefError::Image`. -/
def read_image_size (jpeg_dims : Except ImageError (Nat × Nat))
    (fallback : Except ImageError (Nat × Nat)) : Except GeoRefError (Nat × Nat) :=
  match jpeg_dims with
  | .ok dims => .ok dims
  | .error _ =>
    match fallback with
    | .ok img => .ok img
    | .error e => .error (.Image e)

/-- Model of `Path::with_extension` on plain strings: replace everything after the
last dot (append the extension if there is no dot).  Dots in directory
components are not treated specially; no claim depends on that corner. -/
def with_extension (p ext : String) : String :=
  if p.contains '.' then (p.dropRightWhile (fun c => c ≠ '.')) ++ ext
  else p ++ "." ++ ext

/-- Model of `Path::filestem_str` on plain strings: the file name before the last
dot.  Only feeds the optional report fields. -/
def filestem_str (p : String) : Option String :=
  if p.contains '.' then some ((p.dropRightWhile (fun c => c ≠ '.')).dropRight 1)
  else some p

/-- Outcomes of the external effects `pseudo_georef` performs, in program
order: reading the image dimensions, converting the path bytes to UTF-8, and
creating/writing each sidecar file. -/
structure GeorefEffects where
  read_result : Except GeoRefError (Nat × Nat)
  filename_utf8 : Except FromUtf8Error String
  wld_create : Except IoError Unit
  wld_write : Except IoError Unit
  prj_create : Except IoError Unit
  prj_write : Except IoError Unit

/-- Embedding of `pseudo_georef` from main.rs over the effect oracle: returns the result of
the function together with the list of sidecar files whose `File::create`
succeeded (a later failed write leaves the created file in place, as the
source has no cleanup).  Every `try!` early-returns the converted error.
Starting from `name := none`, the source's `if stem_res.is_some` assignment
is the same as storing the optional stem directly. -/
def pseudo_georef (imagepath : String) (eff : GeorefEffects) :
    Except GeoRefError RefBox × List String :=
  match eff.read_result with
  | .error e => (.error e, [])
  | .ok (width, height) =>
    let refbox := refBox_new width height
    let refbox := { refbox with name := filestem_str imagepath }
    match eff.filename_utf8 with
    | .error e => (.error (.fromUtf8 e), [])
    | .ok fname =>
      let refbox := { refbox with filename := some fname }
      match eff.wld_create with
      | .error e => (.error (.Io e), [])
      | .ok _ =>
        match eff.wld_write with
        | .error e => (.error (.Io e), [with_extension imagepath ("wld")])
        | .ok _ =>
          match eff.prj_create with
          | .error e => (.error (.Io e), [with_extension imagepath ("wld")])
          | .ok _ =>
            match eff.prj_write with
            | .error e => (.error (.Io e),
                [with_extension imagepath ("wld"), with_extension imagepath ("prj")])
            | .ok _ => (.ok refbox,
                [with_extension imagepath ("wld"), with_extension imagepath ("prj")])

/-! ### Extension filtering -/

def SUPPORTED_FORMAT_EXTS : List String := ["jpg", "jpeg", "png", "gif", "tiff", "tif"]

/-- One character of `OwnedAsciiExt::into_ascii_lowercase`: ASCII uppercase
letters are shifted to lowercase, all other characters kept. -/
def asciiLowerChar (c : Char) : Char :=
  if 65 ≤ c.toNat ∧ c.toNat ≤ 90 then Char.ofNat (c.toNat + 32) else c

/-- Rust `into_ascii_lowercase` on a string (byte-wise in Rust; byte-wise and
character-wise agree because only ASCII bytes are changed). -/
def into_ascii_lowercase (s : String) : String := s.map asciiLowerChar

/-- Embedding of `is_supported_extension` from main.rs. -/
def is_supported_extension : Option String → Bool
  | none => false
  | some ext_str =>
    let ext_str_lc := into_ascii_lowercase ext_str
    (SUPPORTED_FORMAT_EXTS.find? (fun x => x == ext_str_lc)).isSome

/-! ### Evaluation lemmas for the FP model -/

namespace FP

@[simp] lemma add_fin_fin (a b : ℚ) : add (fin a) (fin b) = fin (a + b) := rfl

@[simp] lemma neg_fin (a : ℚ) : neg (fin a) = fin (-a) := rfl

@[simp] lemma sub_fin_fin (a b : ℚ) : sub (fin a) (fin b) = fin (a - b) := by
  simp [sub, add, neg, sub_eq_add_neg]

@[simp] lemma abs_fin (a : ℚ) : abs (fin a) = fin |a| := by
  rcases lt_or_le a 0 with h | h
  · simp [abs, h, abs_of_neg h]
  · simp [abs, not_lt.mpr h, abs_of_nonneg h]

@[simp] lemma div_fin_fin (a b : ℚ) (hb : b ≠ 0) : div (fin a) (fin b) = fin (a / b) := by
  simp [div, hb]

lemma div_fin_zero_of_pos (a : ℚ) (ha : 0 < a) : div (fin a) (fin 0) = inf := by
  simp [div, ha]

lemma div_fin_inf (a : ℚ) : div (fin a) inf = fin 0 := rfl

lemma div_inf_fin_of_nonneg (b : ℚ) (hb : 0 ≤ b) : div inf (fin b) = inf := by
  simp [div, hb]

lemma div_fin_zero_of_zero : div (fin 0) (fin 0) = nan := by simp [div]

lemma div_nan_left (x : FP) : div nan x = nan := by cases x <;> rfl

lemma div_fin_nan (a : ℚ) : div (fin a) nan = nan := rfl

@[simp] lemma lt_fin_fin (a b : ℚ) : lt (fin a) (fin b) = decide (a < b) := rfl

lemma lt_inf_left (x : FP) : lt inf x = false := by cases x <;> rfl

lemma lt_nan_right (x : FP) : lt x nan = false := by cases x <;> rfl

@[simp] lemma le_fin_fin (a b : ℚ) : le (fin a) (fin b) = decide (a ≤ b) := rfl

lemma sub_fin_inf (a : ℚ) : sub (fin a) inf = ninf := rfl

lemma add_fin_inf (a : ℚ) : add (fin a) inf = inf := rfl

lemma mul_nan_left (x : FP) : mul nan x = nan := by cases x <;> rfl

/-- Multiplying by the literal `-1.0` is IEEE negation. -/
lemma mul_minus_one (x : FP) : mul x (fin (-1)) = neg x := by
  cases x <;> simp [mul, neg]

@[simp] lemma toRatD_fin (a : ℚ) : toRatD (fin a) = a := rfl

end FP

@[simp] lemma pmin_fin_fin (a b : ℚ) : pmin (.fin a) (.fin b) = some (.fin (min a b)) := by
  rcases le_total a b with h | h
  · simp [pmin, FP.isNan, FP.le, h, min_eq_left h]
  · rcases eq_or_lt_of_le h with rfl | hlt
    · simp [pmin, FP.isNan, FP.le]
    · simp [pmin, FP.isNan, FP.le, not_le.mpr hlt, min_eq_right h]

@[simp] lemma difference_fin_fin (a b : ℚ) : difference (.fin a) (.fin b) = .fin |a - b| := by
  simp [difference]

/-! ### Closed forms for the concrete CRS_BBOX constants -/

lemma crs_extent_x : difference (CRS_BBOX 0) (CRS_BBOX 2) = .fin ewxQ := by
  show difference (.fin (-20026376.39)) (.fin 20026376.39) = _
  rw [difference_fin_fin]
  norm_num [ewxQ, abs]

lemma crs_extent_y : difference (CRS_BBOX 1) (CRS_BBOX 3) = .fin ewyQ := by
  show difference (.fin (-20048966.10)) (.fin 20048966.10) = _
  rw [difference_fin_fin]
  norm_num [ewyQ, abs]

lemma crs_ratio_world : FP.div (.fin ewxQ) (.fin ewyQ) = .fin rwQ := by
  rw [FP.div_fin_fin _ _ (by norm_num [ewyQ])]
  norm_num [ewxQ, ewyQ, rwQ]

lemma rwQ_pos : 0 < rwQ := by norm_num [rwQ]

lemma rwQ_lt_one : rwQ < 1 := by norm_num [rwQ]

lemma crs_center_x :
    FP.add ((pmin (CRS_BBOX 0) (CRS_BBOX 2)).getD .nan) (FP.div (.fin ewxQ) (.fin 2)) =
      .fin 0 := by
  show FP.add ((pmin (.fin (-20026376.39)) (.fin 20026376.39)).getD .nan) _ = _
  rw [pmin_fin_fin, FP.div_fin_fin _ _ (by norm_num)]
  simp only [Option.getD_some, FP.add_fin_fin]
  norm_num [ewxQ, min_def]

lemma crs_center_y :
    FP.add ((pmin (CRS_BBOX 1) (CRS_BBOX 3)).getD .nan) (FP.div (.fin ewyQ) (.fin 2)) =
      .fin 0 := by
  show FP.add ((pmin (.fin (-20048966.10)) (.fin 20048966.10)).getD .nan) _ = _
  rw [pmin_fin_fin, FP.div_fin_fin _ _ (by norm_num)]
  simp only [Option.getD_some, FP.add_fin_fin]
  norm_num [ewyQ, min_def]

/-! ### Closed form of `RefBox::new` for positive dimensions -/

lemma cast_pos_ne_zero {n : Nat} (hn : 0 < n) : ((n : ℚ)) ≠ 0 := by
  exact_mod_cast Nat.pos_iff_ne_zero.mp hn

lemma ratio_img_pos {w h : Nat} (hw : 0 < w) (hh : 0 < h) : 0 < (w : ℚ) / h := by
  positivity

/-- Closed form of `RefBox::new` when the image is taller than the world
(`ratio_world > ratio_img` branch): `extent_img[0]` is divided. -/
lemma refBox_new_pos_lt (w h : Nat) (hw : 0 < w) (hh : 0 < h)
    (hbr : (w : ℚ) / h < rwQ) :
    refBox_new w h =
      { bbox :=
          { minx := .fin (0 - ewxQ / ((w : ℚ) / h) / 2),
            miny := .fin (0 - ewyQ / 2),
            maxx := .fin (0 + ewxQ / ((w : ℚ) / h) / 2),
            maxy := .fin (0 + ewyQ / 2) },
        size := ⟨w, h⟩, name := none, filename := none } := by
  have hr : ((w : ℚ) / h) ≠ 0 := ne_of_gt (ratio_img_pos hw hh)
  simp only [refBox_new, refBox_new_with]
  rw [crs_extent_x, crs_extent_y, crs_ratio_world,
    FP.div_fin_fin _ _ (cast_pos_ne_zero hh), FP.lt_fin_fin]
  rw [crs_center_x, crs_center_y]
  simp only [decide_eq_true_eq, if_pos hbr]
  rw [FP.div_fin_fin _ _ hr, FP.div_fin_fin _ _ (by norm_num : (2:ℚ) ≠ 0),
    FP.div_fin_fin _ _ (by norm_num : (2:ℚ) ≠ 0)]
  simp only [FP.sub_fin_fin, FP.add_fin_fin]

/-- Closed form of `RefBox::new` in the `else` branch (`ratio_world ≤ ratio_img`):
`extent_img[1]` is divided. -/
lemma refBox_new_pos_ge (w h : Nat) (hw : 0 < w) (hh : 0 < h)
    (hbr : rwQ ≤ (w : ℚ) / h) :
    refBox_new w h =
      { bbox :=
          { minx := .fin (0 - ewxQ / 2),
            miny := .fin (0 - ewyQ / ((w : ℚ) / h) / 2),
            maxx := .fin (0 + ewxQ / 2),
            maxy := .fin (0 + ewyQ / ((w : ℚ) / h) / 2) },
        size := ⟨w, h⟩, name := none, filename := none } := by
  have hr : ((w : ℚ) / h) ≠ 0 := ne_of_gt (ratio_img_pos hw hh)
  simp only [refBox_new, refBox_new_with]
  rw [crs_extent_x, crs_extent_y, crs_ratio_world,
    FP.div_fin_fin _ _ (cast_pos_ne_zero hh), FP.lt_fin_fin]
  rw [crs_center_x, crs_center_y]
  simp only [decide_eq_true_eq, if_neg (not_lt.mpr hbr)]
  rw [FP.div_fin_fin _ _ hr, FP.div_fin_fin _ _ (by norm_num : (2:ℚ) ≠ 0),
    FP.div_fin_fin _ _ (by norm_num : (2:ℚ) ≠ 0)]
  simp only [FP.sub_fin_fin, FP.add_fin_fin]

/-- Closed form of `RefBox::new` with `width = 0` and positive height: `ratio_img` is exactly
`0`, the `ratio_world > ratio_img` branch divides the world extent by zero and
the bounding box degenerates to `(-inf, +inf)` in x. -/
lemma refBox_new_zero_width (h : Nat) (hh : 0 < h) :
    refBox_new 0 h =
      { bbox :=
          { minx := .ninf,
            miny := .fin (0 - ewyQ / 2),
            maxx := .inf,
            maxy := .fin (0 + ewyQ / 2) },
        size := ⟨0, h⟩, name := none, filename := none } := by
  simp only [refBox_new, refBox_new_with]
  rw [crs_extent_x, crs_extent_y, crs_ratio_world,
    FP.div_fin_fin _ _ (cast_pos_ne_zero hh)]
  rw [crs_center_x, crs_center_y]
  simp only [Nat.cast_zero, zero_div, FP.lt_fin_fin, decide_eq_true_eq,
    if_pos rwQ_pos]
  rw [FP.div_fin_zero_of_pos _ (by norm_num [ewxQ]),
    FP.div_inf_fin_of_nonneg _ (by norm_num),
    FP.div_fin_fin _ _ (by norm_num : (2:ℚ) ≠ 0),
    FP.sub_fin_inf, FP.add_fin_inf]
  simp only [FP.sub_fin_fin, FP.add_fin_fin]

/-- Closed form of `RefBox::new` with `height = 0` and positive width: `ratio_img` is `+inf`,
the `else` branch divides the y-extent by `+inf`, and the bounding box
degenerates to a zero-height line. -/
lemma refBox_new_zero_height (w : Nat) (hw : 0 < w) :
    refBox_new w 0 =
      { bbox :=
          { minx := .fin (0 - ewxQ / 2),
            miny := .fin (0 - 0 / 2),
            maxx := .fin (0 + ewxQ / 2),
            maxy := .fin (0 + 0 / 2) },
        size := ⟨w, 0⟩, name := none, filename := none } := by
  have hwq : (0 : ℚ) < (w : ℚ) := by exact_mod_cast hw
  simp only [refBox_new, refBox_new_with]
  rw [crs_extent_x, crs_extent_y, crs_ratio_world]
  rw [crs_center_x, crs_center_y]
  simp only [Nat.cast_zero]
  rw [FP.div_fin_zero_of_pos _ hwq, FP.lt_inf_left]
  simp only [Bool.false_eq_true, if_false]
  rw [FP.div_fin_inf, FP.div_fin_fin _ _ (by norm_num : (2:ℚ) ≠ 0),
    FP.div_fin_fin _ _ (by norm_num : (2:ℚ) ≠ 0)]
  simp only [FP.sub_fin_fin, FP.add_fin_fin]

lemma min_add_abs_sub_half (a b : ℚ) : min a b + |a - b| / 2 = (a + b) / 2 := by
  rcases le_total a b with h | h
  · rw [min_eq_left h, abs_of_nonpos (by linarith)]
    ring
  · rw [min_eq_right h, abs_of_nonneg (by linarith)]
    ring

/-- For any all-finite CRS constants and positive dimensions, `RefBox::new`
produces a finite bounding box of the shape `center ∓ half-extent`. -/
lemma refBox_new_with_fin (q : Fin 4 → ℚ) (w h : Nat) (hw : 0 < w) (hh : 0 < h) :
    ∃ ex ey : ℚ,
      refBox_new_with (fun i => .fin (q i)) w h =
        { bbox :=
            { minx := .fin ((min (q 0) (q 2) + |q 0 - q 2| / 2) - ex / 2),
              miny := .fin ((min (q 1) (q 3) + |q 1 - q 3| / 2) - ey / 2),
              maxx := .fin ((min (q 0) (q 2) + |q 0 - q 2| / 2) + ex / 2),
              maxy := .fin ((min (q 1) (q 3) + |q 1 - q 3| / 2) + ey / 2) },
          size := ⟨w, h⟩, name := none, filename := none } := by
  have hhq := cast_pos_ne_zero hh
  have hr : ((w : ℚ) / h) ≠ 0 := ne_of_gt (ratio_img_pos hw hh)
  simp only [refBox_new_with, difference_fin_fin, pmin_fin_fin, Option.getD_some]
  rw [FP.div_fin_fin _ _ hhq]
  rcases Bool.eq_false_or_eq_true
      (FP.lt (.fin ((w : ℚ) / h)) (FP.div (.fin |q 0 - q 2|) (.fin |q 1 - q 3|)))
    with hbr | hbr
  · refine ⟨|q 0 - q 2| / ((w : ℚ) / h), |q 1 - q 3|, ?_⟩
    simp only [hbr, ite_true, FP.div_fin_fin _ _ hr,
      FP.div_fin_fin _ _ (by norm_num : (2:ℚ) ≠ 0), FP.sub_fin_fin, FP.add_fin_fin]
  · refine ⟨|q 0 - q 2|, |q 1 - q 3| / ((w : ℚ) / h), ?_⟩
    simp only [hbr, Bool.false_eq_true, ite_false, FP.div_fin_fin _ _ hr,
      FP.div_fin_fin _ _ (by norm_num : (2:ℚ) ≠ 0), FP.sub_fin_fin, FP.add_fin_fin]

/-! ### The spec's algorithm for the geotransform calculator -/

lemma FP.minF_fin_fin (a b : ℚ) : FP.minF (.fin a) (.fin b) = .fin (min a b) := by
  rcases lt_or_le b a with h | h
  · simp [FP.minF, FP.lt_fin_fin, h, min_eq_right h.le]
  · simp [FP.minF, FP.lt_fin_fin, not_lt.mpr h, min_eq_left h]

lemma crs_extent_x_spec : FP.abs (FP.sub (CRS_BBOX 2) (CRS_BBOX 0)) = .fin ewxQ := by
  show FP.abs (FP.sub (.fin 20026376.39) (.fin (-20026376.39))) = _
  rw [FP.sub_fin_fin, FP.abs_fin, abs_of_nonneg (by norm_num)]
  norm_num [ewxQ]

lemma crs_extent_y_spec : FP.abs (FP.sub (CRS_BBOX 3) (CRS_BBOX 1)) = .fin ewyQ := by
  show FP.abs (FP.sub (.fin 20048966.10) (.fin (-20048966.10))) = _
  rw [FP.sub_fin_fin, FP.abs_fin, abs_of_nonneg (by norm_num)]
  norm_num [ewyQ]

lemma crs_center_x_spec :
    FP.add (FP.minF (CRS_BBOX 0) (CRS_BBOX 2)) (FP.div (.fin ewxQ) (.fin 2)) = .fin 0 := by
  show FP.add (FP.minF (.fin (-20026376.39)) (.fin 20026376.39)) _ = _
  rw [FP.minF_fin_fin, FP.div_fin_fin _ _ (by norm_num : (2:ℚ) ≠ 0), FP.add_fin_fin]
  norm_num [ewxQ, min_def]

lemma crs_center_y_spec :
    FP.add (FP.minF (CRS_BBOX 1) (CRS_BBOX 3)) (FP.div (.fin ewyQ) (.fin 2)) = .fin 0 := by
  show FP.add (FP.minF (.fin (-20048966.10)) (.fin 20048966.10)) _ = _
  rw [FP.minF_fin_fin, FP.div_fin_fin _ _ (by norm_num : (2:ℚ) ≠ 0), FP.add_fin_fin]
  norm_num [ewyQ, min_def]

/-! ### Claim theorems -/

/-- C3: for positive dimensions, `RefBox::new` computes the bounding box by
exactly the spec's algorithm (steps 1–5): the world extent is copied, the
axis selected by `ratioWorld > ratioImg` is divided by `ratioImg`, and the
box is `centerWorld ∓ extentImg/2` — the embedded source computation and the
spec's algorithm agree operation for operation. -/
theorem refBox_new_matches_spec_algorithm (w h : Nat) (_hw : 0 < w) (_hh : 0 < h) :
    (refBox_new w h).bbox = computeReference_spec w h := by
  simp only [refBox_new, refBox_new_with, computeReference_spec]
  rw [crs_extent_x, crs_extent_y, crs_extent_x_spec, crs_extent_y_spec,
    crs_center_x, crs_center_y, crs_center_x_spec, crs_center_y_spec]

/-- Witness for C3 at the concrete size 2×1. -/
theorem refBox_new_matches_spec_algorithm_witness :
    0 < 2 ∧ 0 < 1 ∧ (refBox_new 2 1).bbox = computeReference_spec 2 1 :=
  ⟨by decide, by decide, refBox_new_matches_spec_algorithm 2 1 (by decide) (by decide)⟩

/-- C4: for every RefBox the six world-file slots are, in order,
`width/size.width`, `0.0`, `0.0`, `-(height/size.height)`, `minx`, `maxy`;
in particular the rotation slots are exactly `0.0`, and slot 4 is the exact
IEEE negation of `height/size.height` (multiplying by `-1.0` is negation). -/
theorem world_file_values_slots (rb : RefBox) :
    world_file_values rb =
      [ FP.div rb.bbox.width (.fin (rb.size.width : ℚ)),
        .fin 0,
        .fin 0,
        FP.neg (FP.div rb.bbox.height (.fin (rb.size.height : ℚ))),
        rb.bbox.minx,
        rb.bbox.maxy ] := by
  simp only [world_file_values, FP.mul_minus_one]

/-- C7: when dimension reading fails, `pseudo_georef` returns that error and
no sidecar file has been created. -/
theorem pseudo_georef_decode_error_no_sidecars (p : String) (eff : GeorefEffects)
    (e : GeoRefError) (hread : eff.read_result = .error e) :
    pseudo_georef p eff = (.error e, []) := by
  simp [pseudo_georef, hread]

/-- Witness for C7: a corrupt-header decode failure propagates and the
sidecar list is empty. -/
theorem pseudo_georef_decode_error_no_sidecars_witness :
    pseudo_georef ("corrupt.jpg")
      { read_result := .error (.Image (.mk ("bad header"))),
        filename_utf8 := .ok "corrupt.jpg",
        wld_create := .ok (), wld_write := .ok (),
        prj_create := .ok (), prj_write := .ok () }
      = (.error (.Image (.mk ("bad header"))), []) :=
  pseudo_georef_decode_error_no_sidecars _ _ _ rfl

/-- C8: `read_image_size` returns an error only when the fallback decode
failed (and then it is that fallback error, tagged `Image`); a JPEG fast-path
success short-circuits to its dimensions whatever the fallback would do; and
a swallowed fast-path failure with a successful fallback still succeeds. -/
theorem read_image_size_error_only_from_fallback
    (j f : Except ImageError (Nat × Nat)) :
    (∀ e, read_image_size j f = .error e → ∃ ie, f = .error ie ∧ e = .Image ie) ∧
    (∀ d, j = .ok d → read_image_size j f = .ok d) ∧
    (∀ je d, j = .error je → f = .ok d → read_image_size j f = .ok d) := by
  refine ⟨?_, ?_, ?_⟩ <;> cases j <;> cases f <;> simp [read_image_size]

/-- Witness for C8: fast-path success wins; fast-path failure falls back. -/
theorem read_image_size_error_only_from_fallback_witness :
    read_image_size (.ok (640, 480)) (.error (.mk ("no decoder"))) = .ok (640, 480) ∧
    read_image_size (.error (.mk ("not a jpeg"))) (.ok (800, 600)) = .ok (800, 600) :=
  ⟨(read_image_size_error_only_from_fallback _ _).2.1 _ rfl,
   (read_image_size_error_only_from_fallback _ _).2.2 _ _ rfl rfl⟩

/-- C9: a present extension is accepted exactly when its ASCII-lowercase
form is one of the six fixed constants. -/
theorem is_supported_extension_iff (s : String) :
    is_supported_extension (some s) = true ↔
      (into_ascii_lowercase s = "jpg" ∨ into_ascii_lowercase s = "jpeg" ∨
       into_ascii_lowercase s = "png" ∨ into_ascii_lowercase s = "gif" ∨
       into_ascii_lowercase s = "tiff" ∨ into_ascii_lowercase s = "tif") := by
  simp only [is_supported_extension, SUPPORTED_FORMAT_EXTS, List.find?_isSome,
    beq_iff_eq, exists_eq_right, List.mem_cons, List.not_mem_nil, or_false]

lemma CRS_BBOX_eq_fin_crsQ : CRS_BBOX = fun i => .fin (crsQ i) := by
  funext i
  fin_cases i <;> rfl

/-- C5: for any all-finite world extent and positive dimensions, the produced
bounding box's midpoint is the true midpoint `((minX+maxX)/2, (minY+maxY)/2)`
of the extent — an expression symmetric in the two x (resp. y) arguments, so
independent of their min/max order — and for the program's fixed `CRS_BBOX`
extent the box is centered on that extent's midpoint, the origin. -/
theorem bbox_centered_at_world_midpoint (q : Fin 4 → ℚ) (w h : Nat)
    (hw : 0 < w) (hh : 0 < h) :
    (FP.div (FP.add (refBox_new_with (fun i => .fin (q i)) w h).bbox.minx
        (refBox_new_with (fun i => .fin (q i)) w h).bbox.maxx) (.fin 2) =
      .fin ((q 0 + q 2) / 2) ∧
    FP.div (FP.add (refBox_new_with (fun i => .fin (q i)) w h).bbox.miny
        (refBox_new_with (fun i => .fin (q i)) w h).bbox.maxy) (.fin 2) =
      .fin ((q 1 + q 3) / 2)) ∧
    (FP.div (FP.add (refBox_new w h).bbox.minx (refBox_new w h).bbox.maxx) (.fin 2) =
      .fin 0 ∧
    FP.div (FP.add (refBox_new w h).bbox.miny (refBox_new w h).bbox.maxy) (.fin 2) =
      .fin 0) := by
  have general : ∀ r : Fin 4 → ℚ,
      FP.div (FP.add (refBox_new_with (fun i => .fin (r i)) w h).bbox.minx
          (refBox_new_with (fun i => .fin (r i)) w h).bbox.maxx) (.fin 2) =
        .fin ((r 0 + r 2) / 2) ∧
      FP.div (FP.add (refBox_new_with (fun i => .fin (r i)) w h).bbox.miny
          (refBox_new_with (fun i => .fin (r i)) w h).bbox.maxy) (.fin 2) =
        .fin ((r 1 + r 3) / 2) := by
    intro r
    obtain ⟨ex, ey, heq⟩ := refBox_new_with_fin r w h hw hh
    rw [heq]
    simp only [FP.add_fin_fin, FP.div_fin_fin _ _ (by norm_num : (2:ℚ) ≠ 0)]
    constructor
    · congr 1
      have h02 := min_add_abs_sub_half (r 0) (r 2)
      linarith
    · congr 1
      have h13 := min_add_abs_sub_half (r 1) (r 3)
      linarith
  refine ⟨general q, ?_⟩
  have hc : refBox_new w h = refBox_new_with (fun i => .fin (crsQ i)) w h := by
    rw [refBox_new, CRS_BBOX_eq_fin_crsQ]
  rw [hc]
  obtain ⟨hx, hy⟩ := general crsQ
  rw [hx, hy]
  constructor <;> · congr 1; norm_num [crsQ]

/-- Witness for C5 at a reversed-order extent (minX/maxX and minY/maxY
swapped) and size 2×1. -/
theorem bbox_centered_at_world_midpoint_witness :
    0 < 2 ∧ 0 < 1 ∧
    FP.div (FP.add (refBox_new_with (fun i => .fin (![5, 4, 1, 2] i)) 2 1).bbox.minx
        (refBox_new_with (fun i => .fin (![5, 4, 1, 2] i)) 2 1).bbox.maxx) (.fin 2) =
      .fin ((![5, 4, 1, 2] 0 + ![5, 4, 1, 2] 2) / 2) :=
  ⟨by decide, by decide,
    ((bbox_centered_at_world_midpoint ![5, 4, 1, 2] 2 1 (by decide) (by decide)).1).1⟩

lemma wfv_getD_3 (rb : RefBox) :
    (world_file_values rb).getD 3 .nan =
      FP.mul (FP.div rb.bbox.height (.fin (rb.size.height : ℚ))) (.fin (-1)) := rfl

lemma slot3_nonpos_of_fin (rb : RefBox) {a b : ℚ}
    (hminy : rb.bbox.miny = .fin a) (hmaxy : rb.bbox.maxy = .fin b)
    (hh : 0 < rb.size.height) :
    FP.le ((world_file_values rb).getD 3 .nan) (.fin 0) = true := by
  rw [wfv_getD_3]
  simp only [BoundingBox.height]
  rw [hminy, hmaxy, difference_fin_fin, FP.div_fin_fin _ _ (cast_pos_ne_zero hh),
    FP.mul_minus_one, FP.neg_fin, FP.le_fin_fin, decide_eq_true_eq]
  have h0 : (0:ℚ) ≤ |a - b| / (rb.size.height : ℚ) := by positivity
  linarith

/-- C6: for any raster size with positive height, slot 4 of the geotransform
(index 3 of `world_file_values`, the pixel height) is ≤ 0 — also when the
width is 0 and the bounding box is degenerate. -/
theorem world_file_pixel_height_nonpositive (w h : Nat) (hh : 0 < h) :
    FP.le ((world_file_values (refBox_new w h)).getD 3 .nan) (.fin 0) = true := by
  rcases Nat.eq_zero_or_pos w with rfl | hw
  · exact slot3_nonpos_of_fin _
      (by rw [refBox_new_zero_width h hh]) (by rw [refBox_new_zero_width h hh]) hh
  · rcases lt_or_le ((w : ℚ) / h) rwQ with hbr | hbr
    · exact slot3_nonpos_of_fin _
        (by rw [refBox_new_pos_lt w h hw hh hbr]) (by rw [refBox_new_pos_lt w h hw hh hbr]) hh
    · exact slot3_nonpos_of_fin _
        (by rw [refBox_new_pos_ge w h hw hh hbr]) (by rw [refBox_new_pos_ge w h hw hh hbr]) hh

/-- Witness for C6 at size 2×1. -/
theorem world_file_pixel_height_nonpositive_witness :
    0 < 1 ∧
    FP.le ((world_file_values (refBox_new 2 1)).getD 3 .nan) (.fin 0) = true :=
  ⟨by decide, world_file_pixel_height_nonpositive 2 1 (by decide)⟩

/-- C10: for positive dimensions the bounding box is ordered,
`minx ≤ maxx` and `miny ≤ maxy`. -/
theorem bbox_ordering_invariant (w h : Nat) (hw : 0 < w) (hh : 0 < h) :
    FP.le (refBox_new w h).bbox.minx (refBox_new w h).bbox.maxx = true ∧
    FP.le (refBox_new w h).bbox.miny (refBox_new w h).bbox.maxy = true := by
  have hex : (0:ℚ) < ewxQ := by norm_num [ewxQ]
  have hey : (0:ℚ) < ewyQ := by norm_num [ewyQ]
  have hri := ratio_img_pos hw hh
  rcases lt_or_le ((w : ℚ) / h) rwQ with hbr | hbr
  · rw [refBox_new_pos_lt w h hw hh hbr]
    simp only [FP.le_fin_fin, decide_eq_true_eq]
    have hX := div_pos hex hri
    constructor <;> linarith
  · rw [refBox_new_pos_ge w h hw hh hbr]
    simp only [FP.le_fin_fin, decide_eq_true_eq]
    have hY := div_pos hey hri
    constructor <;> linarith

/-- Witness for C10 at size 2×1. -/
theorem bbox_ordering_invariant_witness :
    0 < 2 ∧
    (FP.le (refBox_new 2 1).bbox.minx (refBox_new 2 1).bbox.maxx = true ∧
     FP.le (refBox_new 2 1).bbox.miny (refBox_new 2 1).bbox.maxy = true) :=
  ⟨by decide, bbox_ordering_invariant 2 1 (by decide) (by decide)⟩

/-- C1 is false on the code: `RefBox::new(0, 1)` does not fail (the function
cannot fail, its return type is a plain `RefBox`) and the returned bounding
box contains infinities: `ratio_img = 0/1 = +0`, the
`ratio_world > ratio_img` branch divides the world x-extent by zero, and the
box degenerates to `(-inf, +inf)` in x. -/
theorem refBox_new_zero_width_infinite_bbox :
    (refBox_new 0 1).bbox.minx = FP.ninf ∧ (refBox_new 0 1).bbox.maxx = FP.inf := by
  rw [refBox_new_zero_width 1 (by norm_num)]
  exact ⟨rfl, rfl⟩

/-- C1 (amended): `RefBox::new` performs no validation and always returns a
RefBox; with width = 0 (and positive height) the box's x bounds are
`-inf`/`+inf`, and with height = 0 (and positive width) the geotransform's
pixel-height slot is `nan` (a `0.0/0.0`). -/
theorem refBox_new_zero_dims_no_error (w h : Nat) (hw : 0 < w) (hh : 0 < h) :
    ((refBox_new 0 h).bbox.minx = FP.ninf ∧ (refBox_new 0 h).bbox.maxx = FP.inf) ∧
    (world_file_values (refBox_new w 0)).getD 3 .nan = FP.nan := by
  constructor
  · rw [refBox_new_zero_width h hh]
    exact ⟨rfl, rfl⟩
  · rw [refBox_new_zero_height w hw, wfv_getD_3]
    simp only [BoundingBox.height, difference_fin_fin, Nat.cast_zero]
    have h0 : |0 - 0 / 2 - (0 + 0 / 2)| = (0 : ℚ) := by norm_num
    rw [h0, FP.div_fin_zero_of_zero, FP.mul_nan_left]

/-- Witness for the amended C1 at width 1, height 1. -/
theorem refBox_new_zero_dims_no_error_witness :
    0 < 1 ∧
    (((refBox_new 0 1).bbox.minx = FP.ninf ∧ (refBox_new 0 1).bbox.maxx = FP.inf) ∧
      (world_file_values (refBox_new 1 0)).getD 3 .nan = FP.nan) :=
  ⟨by decide, refBox_new_zero_dims_no_error 1 1 (by decide) (by decide)⟩

lemma abs_span (c x : ℚ) (hx : 0 ≤ x) : |c - x / 2 - (c + x / 2)| = x := by
  rw [abs_of_nonpos (by linarith)]
  ring

lemma bbox_width_height_pos_lt (w h : Nat) (hw : 0 < w) (hh : 0 < h)
    (hbr : (w : ℚ) / h < rwQ) :
    (refBox_new w h).bbox.width = .fin (ewxQ / ((w : ℚ) / h)) ∧
    (refBox_new w h).bbox.height = .fin ewyQ := by
  have hri := ratio_img_pos hw hh
  have hex : (0:ℚ) < ewxQ := by norm_num [ewxQ]
  have hey : (0:ℚ) < ewyQ := by norm_num [ewyQ]
  rw [refBox_new_pos_lt w h hw hh hbr]
  constructor
  · simp only [BoundingBox.width, difference_fin_fin]
    rw [abs_span _ _ (div_pos hex hri).le]
  · simp only [BoundingBox.height, difference_fin_fin]
    rw [abs_span _ _ hey.le]

lemma bbox_width_height_pos_ge (w h : Nat) (hw : 0 < w) (hh : 0 < h)
    (hbr : rwQ ≤ (w : ℚ) / h) :
    (refBox_new w h).bbox.width = .fin ewxQ ∧
    (refBox_new w h).bbox.height = .fin (ewyQ / ((w : ℚ) / h)) := by
  have hri := ratio_img_pos hw hh
  have hex : (0:ℚ) < ewxQ := by norm_num [ewxQ]
  have hey : (0:ℚ) < ewyQ := by norm_num [ewyQ]
  rw [refBox_new_pos_ge w h hw hh hbr]
  constructor
  · simp only [BoundingBox.width, difference_fin_fin]
    rw [abs_span _ _ hex.le]
  · simp only [BoundingBox.height, difference_fin_fin]
    rw [abs_span _ _ (div_pos hey hri).le]

/-- C2 is false on the code at the square image 1×1: the claim asks for
`|bboxWidth/bboxHeight - width/height| ≤ 1e-9 · (width/height)`, but for a
square image the produced ratio is the world ratio `rwQ ≈ 0.99887`, off by
about `1.13e-3`. -/
theorem aspect_ratio_counterexample :
    ¬ (|(refBox_new 1 1).bbox.width.toRatD / (refBox_new 1 1).bbox.height.toRatD -
          ((1 : ℚ) / 1)| ≤ 1 / 1000000000 * ((1 : ℚ) / 1)) := by
  obtain ⟨hwd, hht⟩ := bbox_width_height_pos_ge 1 1 (by norm_num) (by norm_num)
    (by norm_num [rwQ])
  rw [hwd, hht]
  simp only [FP.toRatD_fin]
  have hX : ewxQ / (ewyQ / (((1:ℕ) : ℚ) / ((1:ℕ) : ℚ))) = 2002637639 / 2004896610 := by
    norm_num [ewxQ, ewyQ]
  rw [hX, abs_of_nonpos (by norm_num)]
  norm_num

/-- C2 (amended): the bounding box does not preserve the image aspect ratio;
it preserves it only up to the world-extent ratio `rwQ = ewxQ/ewyQ ≈ 0.99887`.
For positive dimensions the produced width/height ratio equals
`rwQ / ratioImg` in the `ratio_world > ratio_img` branch and `rwQ · ratioImg`
otherwise (so the relative deviation from `ratioImg` is about `1.1e-3`, far
outside 1e-9). -/
theorem bbox_aspect_ratio_formula (w h : Nat) (hw : 0 < w) (hh : 0 < h) :
    (refBox_new w h).bbox.height.toRatD ≠ 0 ∧
    (refBox_new w h).bbox.width.toRatD / (refBox_new w h).bbox.height.toRatD =
      (if (w : ℚ) / h < rwQ then rwQ / ((w : ℚ) / h) else rwQ * ((w : ℚ) / h)) := by
  have hri := ratio_img_pos hw hh
  have hex : (0:ℚ) < ewxQ := by norm_num [ewxQ]
  have hey : (0:ℚ) < ewyQ := by norm_num [ewyQ]
  have hrw : rwQ = ewxQ / ewyQ := by norm_num [rwQ, ewxQ, ewyQ]
  rcases lt_or_le ((w : ℚ) / h) rwQ with hbr | hbr
  · obtain ⟨hwd, hht⟩ := bbox_width_height_pos_lt w h hw hh hbr
    rw [hwd, hht, if_pos hbr]
    simp only [FP.toRatD_fin]
    refine ⟨hey.ne', ?_⟩
    rw [hrw]
    field_simp
    ring
  · obtain ⟨hwd, hht⟩ := bbox_width_height_pos_ge w h hw hh hbr
    rw [hwd, hht, if_neg (not_lt.mpr hbr)]
    simp only [FP.toRatD_fin]
    refine ⟨(div_pos hey hri).ne', ?_⟩
    rw [hrw]
    field_simp

/-- Witness for the amended C2 at the square size 1×1 (the `else` branch:
the ratio comes out as `rwQ · 1`). -/
theorem bbox_aspect_ratio_formula_witness :
    0 < 1 ∧
    ((refBox_new 1 1).bbox.height.toRatD ≠ 0 ∧
      (refBox_new 1 1).bbox.width.toRatD / (refBox_new 1 1).bbox.height.toRatD =
        (if ((1:ℕ) : ℚ) / ((1:ℕ) : ℚ) < rwQ then rwQ / (((1:ℕ) : ℚ) / ((1:ℕ) : ℚ))
         else rwQ * (((1:ℕ) : ℚ) / ((1:ℕ) : ℚ)))) :=
  ⟨by decide, bbox_aspect_ratio_formula 1 1 (by decide) (by decide)⟩
